import Mathlib

/-!
Verification of `examples/update_camera_database.py` (XIMEA catalog scraper).

The Python script crawls a three-level hierarchy of catalog pages, extracts
(part number, chroma, camera family) data from product pages, merges the
records into one dictionary and finally sorts it by (camera family, part
number).  We embed the parsed-page data model and the pure logic of the
script shallowly: BeautifulSoup elements become small structures carrying
the only attributes the script reads (truthiness and text), the threaded
crawl becomes a fold over an environment mapping URLs to fetch results, and
Python exceptions (`raise_for_status`, `IndexError`) become `Except`.
-/

namespace UpdateCameraDatabase

/-- `sub` occurs at the front of `s` (over character lists). -/
def charsAtFront : List Char → List Char → Bool
  | [], _ => true
  | _ :: _, [] => false
  | a :: as, b :: bs => a = b && charsAtFront as bs

/-- `sub` occurs somewhere in `s` (over character lists). -/
def charsContain (sub : List Char) : List Char → Bool
  | [] => charsAtFront sub []
  | c :: rest => charsAtFront sub (c :: rest) || charsContain sub rest

/-- Python substring test `sub in s`. -/
def strContains (s sub : String) : Bool :=
  charsContain sub.data s.data

/-- Python `str.lower()` (the script only meets ASCII text). -/
def strLower (s : String) : String :=
  ⟨s.data.map Char.toLower⟩

/-- Python `str.strip()`: drop whitespace from both ends. -/
def strTrim (s : String) : String :=
  ⟨((s.data.dropWhile Char.isWhitespace).reverse.dropWhile Char.isWhitespace).reverse⟩

/-- Helper for `splitWS`: the maximal non-whitespace runs of a character
list, the run being accumulated arriving reversed in `cur`. -/
def wsTokens (cur : List Char) : List Char → List String
  | [] => if cur.isEmpty then [] else [⟨cur.reverse⟩]
  | c :: rest =>
    if c.isWhitespace then
      if cur.isEmpty then wsTokens [] rest else ⟨cur.reverse⟩ :: wsTokens [] rest
    else wsTokens (c :: cur) rest

/-- Python `str.split()` with no argument: split on whitespace runs,
dropping empty pieces. -/
def splitWS (s : String) : List String :=
  wsTokens [] s.data

/-- Lexicographic `≤` on character lists, comparing code points — Python's
string comparison. -/
def charsLE : List Char → List Char → Bool
  | [], _ => true
  | _ :: _, [] => false
  | a :: as, b :: bs => if a = b then charsLE as bs else decide (a < b)

/-- Python string `≤` (lexicographic by code point). -/
def strLE (s t : String) : Bool :=
  charsLE s.data t.data

/-- A BeautifulSoup element as the script observes it: its Python
truthiness (a Tag with no children is falsy) and its `get_text()`. -/
structure Cell where
  truthy : Bool
  text : String
deriving DecidableEq, Repr

/-- A `<tr>` row of a product table: the first `span.param_caption` found
in it (if any) and the list of its `<td>` cells. -/
structure Row where
  captionSpan : Option Cell
  tds : List Cell
deriving DecidableEq, Repr

/-- A `div.product-type` element: the `<tr>` rows found inside it. -/
structure ProductDiv where
  rows : List Row
deriving DecidableEq, Repr

/-- A parsed product page: its `div.product-type` elements and the
`get_text()` of each `a.pathway` breadcrumb element. -/
structure Page where
  productDivs : List ProductDiv
  pathways : List String
deriving DecidableEq, Repr

/-- One value of the scraped dictionary (`mosaicWidth`/`mosaicHeight` are
always created as zero placeholders). -/
structure CatalogRecord where
  cameraType : String
  cameraFamily : String
  mosaicWidth : Nat
  mosaicHeight : Nat
deriving DecidableEq, Repr

/-- The fixed list of recognised camera families
(line 162 of the script). -/
def knownFamilies : List String :=
  ["xiC", "xiQ", "xiSpec", "xiX", "xiB", "xiB-64", "xiRAY"]

/-- Python dict assignment `d[k] = v` on a dict modelled as an association
list: an existing key keeps its position and gets the new value, a new key
is appended.  `dict.update(t)` is a fold of this over `t`'s items. -/
def updateAssoc (d : List (String × CatalogRecord)) (kv : String × CatalogRecord) :
    List (String × CatalogRecord) :=
  if d.any (fun p => p.1 = kv.1) then
    d.map (fun p => if p.1 = kv.1 then (p.1, kv.2) else p)
  else d ++ [kv]

/-- Lines 166-172 of the script: classify the chroma string.  Contains
"color" (case-insensitively) ⇒ `rgb`; else contains "monochrome" or
"nir" ⇒ `gray`; else no record (`continue`). -/
def classifyChroma (chroma : String) : Option String :=
  if strContains (strLower chroma) "color" then some "rgb"
  else if strContains (strLower chroma) "monochrome" || strContains (strLower chroma) "nir" then
    some "gray"
  else none

/-- Lines 142-155: one iteration of the row loop, threading the candidate
`(part_number, chroma)` pair.  `row.find_all("td")[1]` raises `IndexError`
when the row has fewer than two `<td>` cells, which we model as `.error`;
a falsy caption span or a falsy second cell leaves the state unchanged. -/
def processRow (st : Option String × Option String) (row : Row) :
    Except String (Option String × Option String) :=
  match row.captionSpan with
  | none => .ok st
  | some cap =>
    if cap.truthy && strContains cap.text "Part Number" then
      match row.tds[1]? with
      | none => .error "IndexError"
      | some td => .ok (if td.truthy then (some (strTrim td.text), st.2) else st)
    else if cap.truthy && strContains cap.text "Chroma" then
      match row.tds[1]? with
      | none => .error "IndexError"
      | some td => .ok (if td.truthy then (st.1, some (strTrim td.text)) else st)
    else .ok st

/-- Lines 157-161: the candidate camera family.  With fewer than two
`a.pathway` elements it stays `None`; otherwise it is the last
whitespace-delimited token of the second pathway's text, and
`split()[-1]` raises `IndexError` when that text has no tokens. -/
def familyCandidate (p : Page) : Except String (Option String) :=
  match p.pathways[1]? with
  | none => .ok none
  | some t =>
    match (splitWS t).getLast? with
    | none => .error "IndexError"
    | some tok => .ok (some tok)

/-- Lines 136-178: one iteration of the `for div in product_divs` loop,
threading the temporary dictionary. -/
def processDiv (p : Page) (temp : List (String × CatalogRecord)) (div : ProductDiv) :
    Except String (List (String × CatalogRecord)) := do
  let st ← div.rows.foldlM processRow (none, none)
  let fam ← familyCandidate p
  match fam with
  | none => pure temp
  | some f =>
    if f ∈ knownFamilies then
      match st.1, st.2 with
      | some pn, some ch =>
        if pn ≠ "" && ch ≠ "" then
          match classifyChroma ch with
          | some ct => pure (updateAssoc temp (pn, ⟨ct, f, 0, 0⟩))
          | none => pure temp
        else pure temp
      | _, _ => pure temp
    else pure temp

/-- Lines 134-182, `extract_part_numbers_and_chroma` up to the lock-guarded
merge: the temporary dictionary built from a page's product divs, or the
exception that aborted the loop. -/
def extract_part_numbers_and_chroma (p : Page) :
    Except String (List (String × CatalogRecord)) :=
  p.productDivs.foldlM (processDiv p) []

/-- The records a page actually merges into the shared dictionary: none
when the extraction raised (the exception is caught at the crawl loop and
the temporary dictionary is discarded before the lock-guarded update). -/
def mergedRecords (p : Page) : List (String × CatalogRecord) :=
  match extract_part_numbers_and_chroma p with
  | .ok recs => recs
  | .error _ => []

/-- The failure raised by `response.raise_for_status()` (or an aborted
network call) in `requests.get`. -/
structure FetchError where
  msg : String
deriving DecidableEq, Repr

/-- The crawl's interaction with the network, made explicit: the outcome
of fetching and parsing the root page (the category links it yields), each
category page (the product links it yields) and each product page. -/
structure CrawlEnv where
  rootResult : Except FetchError (List String)
  subcatResult : String → Except FetchError (List String)
  pageResult : String → Except FetchError Page

/-- Lines 103-113 for one product link: `scrape_linked_page` fetches the
page (a `FetchError` is caught at line 112 and reduced to a log line) and
runs the extractor (whose own exception is caught at the same place); on
success the page's records are merged into the shared dictionary under the
lock. -/
def processProduct (env : CrawlEnv) (d : List (String × CatalogRecord)) (link : String) :
    List (String × CatalogRecord) :=
  match env.pageResult link with
  | .error _ => d
  | .ok page =>
    match extract_part_numbers_and_chroma page with
    | .error _ => d
    | .ok recs => recs.foldl updateAssoc d

/-- Lines 99-116 for one category link: `fetch_subcategories` may fail
(caught at line 114 and reduced to a log line, abandoning the branch);
otherwise every product link of the branch is processed. -/
def processCategory (env : CrawlEnv) (d : List (String × CatalogRecord)) (link : String) :
    List (String × CatalogRecord) :=
  match env.subcatResult link with
  | .error _ => d
  | .ok productLinks => productLinks.foldl (processProduct env) d

/-- Lines 71-118, `fetch_part_numbers`: the root fetch
(`fetch_main_categories`, line 82) is outside every `try`, so its
`FetchError` propagates; all per-branch failures are swallowed.  The
concurrent `as_completed` loops are modelled by one linearisation (a fold
over the links); every claim proved below about this function is
insensitive to the chosen order. -/
def fetch_part_numbers (env : CrawlEnv) :
    Except FetchError (List (String × CatalogRecord)) :=
  match env.rootResult with
  | .error e => .error e
  | .ok catLinks => .ok (catLinks.foldl (processCategory env) [])

/-- The sort key comparison of line 214: Python compares the tuples
`(x[1]['cameraFamily'], x[0])` lexicographically, strings by code point. -/
def keyLE (a b : String × CatalogRecord) : Bool :=
  if a.2.cameraFamily = b.2.cameraFamily then strLE a.1 b.1
  else strLE a.2.cameraFamily b.2.cameraFamily

/-- Line 215, `{k: v for k, v in sorted_data}`: rebuilding a dict from a
list of items is a fold of dict assignment into an empty dict. -/
def dictOfList (l : List (String × CatalogRecord)) : List (String × CatalogRecord) :=
  l.foldl updateAssoc []

/-- Lines 205-216, `sort_by_family_and_part_number`: Python's stable
`sorted` by the `(cameraFamily, partNumber)` key, then rebuilding the
dict. -/
def sort_by_family_and_part_number (d : List (String × CatalogRecord)) :
    List (String × CatalogRecord) :=
  dictOfList (d.mergeSort keyLE)

/-! ### Properties of the lexicographic comparison -/

theorem charsLE_total : ∀ a b : List Char, (charsLE a b || charsLE b a) = true
  | [], _ => by simp [charsLE]
  | _ :: _, [] => by simp [charsLE]
  | a :: as, b :: bs => by
    by_cases h : a = b
    · subst h
      simpa [charsLE] using charsLE_total as bs
    · have h' : ¬ b = a := fun e => h e.symm
      simp only [charsLE, if_neg h, if_neg h']
      rcases lt_trichotomy a b with hlt | heq | hgt
      · simp [hlt]
      · exact absurd heq h
      · simp [hgt]

theorem charsLE_trans :
    ∀ a b c : List Char, charsLE a b = true → charsLE b c = true → charsLE a c = true
  | [], _, _, _, _ => by simp [charsLE]
  | _ :: _, [], _, h, _ => by simp [charsLE] at h
  | _ :: _, _ :: _, [], _, h2 => by simp [charsLE] at h2
  | a :: as, b :: bs, c :: cs, h1, h2 => by
    by_cases hab : a = b <;> by_cases hbc : b = c
    · subst hab; subst hbc
      simp only [charsLE, if_pos rfl] at h1 h2 ⊢
      exact charsLE_trans as bs cs h1 h2
    · subst hab
      simp only [charsLE, if_pos rfl, if_neg hbc] at h1 h2 ⊢
      exact h2
    · subst hbc
      simp only [charsLE, if_neg hab, if_pos rfl] at h1 h2 ⊢
      exact h1
    · simp only [charsLE, if_neg hab, if_neg hbc, decide_eq_true_eq] at h1 h2
      have hac : a < c := lt_trans h1 h2
      have hne : a ≠ c := ne_of_lt hac
      simp [charsLE, if_neg hne, hac]

theorem charsLE_antisymm :
    ∀ a b : List Char, charsLE a b = true → charsLE b a = true → a = b
  | [], [], _, _ => rfl
  | [], _ :: _, _, h2 => by simp [charsLE] at h2
  | _ :: _, [], h1, _ => by simp [charsLE] at h1
  | a :: as, b :: bs, h1, h2 => by
    by_cases hab : a = b
    · subst hab
      simp only [charsLE, if_pos rfl] at h1 h2
      rw [charsLE_antisymm as bs h1 h2]
    · have hba : ¬ b = a := fun e => hab e.symm
      simp only [charsLE, if_neg hab, if_neg hba, decide_eq_true_eq] at h1 h2
      exact absurd (lt_trans h1 h2) (lt_irrefl a)

theorem strLE_total (s t : String) : (strLE s t || strLE t s) = true :=
  charsLE_total s.data t.data

theorem strLE_trans {s t u : String} (h1 : strLE s t = true) (h2 : strLE t u = true) :
    strLE s u = true :=
  charsLE_trans s.data t.data u.data h1 h2

theorem strLE_antisymm {s t : String} (h1 : strLE s t = true) (h2 : strLE t s = true) :
    s = t :=
  String.ext (charsLE_antisymm s.data t.data h1 h2)

theorem keyLE_total (a b : String × CatalogRecord) : (keyLE a b || keyLE b a) = true := by
  by_cases h : a.2.cameraFamily = b.2.cameraFamily
  · simp only [keyLE, if_pos h, if_pos h.symm]
    exact strLE_total a.1 b.1
  · have h' : ¬ b.2.cameraFamily = a.2.cameraFamily := fun e => h e.symm
    simp only [keyLE, if_neg h, if_neg h']
    exact strLE_total a.2.cameraFamily b.2.cameraFamily

theorem keyLE_trans (a b c : String × CatalogRecord)
    (h1 : keyLE a b = true) (h2 : keyLE b c = true) : keyLE a c = true := by
  by_cases hab : a.2.cameraFamily = b.2.cameraFamily <;>
    by_cases hbc : b.2.cameraFamily = c.2.cameraFamily
  · simp only [keyLE, if_pos hab, if_pos hbc, if_pos (hab.trans hbc)] at h1 h2 ⊢
    exact strLE_trans h1 h2
  · have hac : ¬ a.2.cameraFamily = c.2.cameraFamily := fun e => hbc (hab.symm.trans e)
    simp only [keyLE, if_pos hab, if_neg hbc, if_neg hac] at h2 ⊢
    rw [hab]
    exact h2
  · have hac : ¬ a.2.cameraFamily = c.2.cameraFamily := fun e => hab (e.trans hbc.symm)
    simp only [keyLE, if_neg hab, if_pos hbc, if_neg hac] at h1 ⊢
    rw [← hbc]
    exact h1
  · simp only [keyLE, if_neg hab, if_neg hbc] at h1 h2
    by_cases hac : a.2.cameraFamily = c.2.cameraFamily
    · exact absurd (strLE_antisymm h1 (by rw [hac]; exact h2)) hab
    · simp only [keyLE, if_neg hac]
      exact strLE_trans h1 h2

/-! ### The dict-rebuilding step of the sorter -/

theorem updateAssoc_of_not_mem (d : List (String × CatalogRecord))
    (kv : String × CatalogRecord) (h : kv.1 ∉ d.map Prod.fst) :
    updateAssoc d kv = d ++ [kv] := by
  have : d.any (fun p => p.1 = kv.1) = false := by
    simp only [List.any_eq_false, decide_eq_true_eq]
    intro p hp he
    exact h (he ▸ List.mem_map_of_mem Prod.fst hp)
  simp [updateAssoc, this]

theorem foldl_updateAssoc_nodup :
    ∀ (l acc : List (String × CatalogRecord)),
      ((acc ++ l).map Prod.fst).Nodup → l.foldl updateAssoc acc = acc ++ l
  | [], acc, _ => by simp
  | kv :: t, acc, h => by
    have hmap : ((acc ++ kv :: t).map Prod.fst) =
        acc.map Prod.fst ++ kv.1 :: t.map Prod.fst := by simp
    have hnotin : kv.1 ∉ acc.map Prod.fst := by
      rw [hmap] at h
      have := (List.nodup_append.mp h).2.2
      intro hx
      exact this hx (List.mem_cons_self _ _)
    have hstep : updateAssoc acc kv = acc ++ [kv] := updateAssoc_of_not_mem acc kv hnotin
    have hrec := foldl_updateAssoc_nodup t (acc ++ [kv])
      (by simpa using h)
    calc (kv :: t).foldl updateAssoc acc = t.foldl updateAssoc (updateAssoc acc kv) := rfl
      _ = t.foldl updateAssoc (acc ++ [kv]) := by rw [hstep]
      _ = (acc ++ [kv]) ++ t := hrec
      _ = acc ++ kv :: t := by simp

theorem dictOfList_of_nodup (l : List (String × CatalogRecord))
    (h : (l.map Prod.fst).Nodup) : dictOfList l = l := by
  simpa [dictOfList] using foldl_updateAssoc_nodup l [] (by simpa using h)

/-! ### Reduction helpers for the `Except` monad -/

@[simp] theorem bind_ok_eq {α β : Type} (v : α) (f : α → Except String β) :
    (Except.ok v >>= f) = f v := rfl

@[simp] theorem bind_error_eq {α β : Type} (e : String) (f : α → Except String β) :
    ((Except.error e : Except String α) >>= f) = Except.error e := rfl

@[simp] theorem pure_eq_ok {α : Type} (v : α) :
    (pure v : Except String α) = Except.ok v := rfl

/-! ### Shape of the records the extractor emits -/

/-- The invariant of every record the script stores: a non-empty part
number key and a recognised camera family. -/
def goodEntry (kv : String × CatalogRecord) : Prop :=
  kv.1 ≠ "" ∧ kv.2.cameraFamily ∈ knownFamilies

theorem mem_updateAssoc {d : List (String × CatalogRecord)}
    {kv x : String × CatalogRecord} (hx : x ∈ updateAssoc d kv) : x ∈ d ∨ x = kv := by
  unfold updateAssoc at hx
  by_cases h : d.any (fun p => p.1 = kv.1) <;> simp only [h, if_true, if_false] at hx
  · rcases List.mem_map.mp hx with ⟨p, hp, he⟩
    by_cases hpk : p.1 = kv.1
    · right
      simp only [if_pos hpk] at he
      rw [← he, hpk]
    · left
      simp only [if_neg hpk] at he
      exact he ▸ hp
  · rcases List.mem_append.mp hx with h1 | h1
    · exact Or.inl h1
    · exact Or.inr (List.mem_singleton.mp h1)

/-- A successful run of the per-div body either leaves the temporary
dictionary unchanged (some filter skipped the div) or stores exactly one
record, with a non-empty part number and a recognised family. -/
theorem processDiv_ok_cases (p : Page) (temp : List (String × CatalogRecord))
    (div : ProductDiv) (out : List (String × CatalogRecord))
    (h : processDiv p temp div = .ok out) :
    out = temp ∨ ∃ pn f ct, pn ≠ "" ∧ f ∈ knownFamilies ∧
      out = updateAssoc temp (pn, ⟨ct, f, 0, 0⟩) := by
  cases hrow : div.rows.foldlM processRow (none, none) with
  | error e => simp [processDiv, hrow] at h
  | ok st =>
    cases hfam : familyCandidate p with
    | error e => simp [processDiv, hrow, hfam] at h
    | ok fam =>
      simp only [processDiv, hrow, hfam, bind_ok_eq] at h
      obtain ⟨pn?, ch?⟩ := st
      cases fam with
      | none =>
        simp only [pure_eq_ok, Except.ok.injEq] at h
        exact Or.inl h.symm
      | some f =>
        by_cases hf : f ∈ knownFamilies
        · simp only [if_pos hf] at h
          cases pn? with
          | none => simp only [pure_eq_ok, Except.ok.injEq] at h; exact Or.inl h.symm
          | some pn =>
            cases ch? with
            | none => simp only [pure_eq_ok, Except.ok.injEq] at h; exact Or.inl h.symm
            | some ch =>
              by_cases hpn : pn = ""
              · simp [hpn] at h
                exact Or.inl h.symm
              · by_cases hch : ch = ""
                · simp [hch] at h
                  exact Or.inl h.symm
                · simp only [ne_eq, hpn, hch, not_false_eq_true, decide_eq_true_eq,
                    if_pos, Bool.and_self] at h
                  cases hcl : classifyChroma ch with
                  | none =>
                    simp only [hcl, pure_eq_ok, Except.ok.injEq] at h
                    exact Or.inl h.symm
                  | some ct =>
                    simp only [hcl, pure_eq_ok, Except.ok.injEq] at h
                    exact Or.inr ⟨pn, f, ct, hpn, hf, h.symm⟩
        · simp only [if_neg hf, pure_eq_ok, Except.ok.injEq] at h
          exact Or.inl h.symm

theorem processDiv_good (p : Page) {temp div out}
    (hg : ∀ x ∈ temp, goodEntry x) (h : processDiv p temp div = .ok out) :
    ∀ x ∈ out, goodEntry x := by
  rcases processDiv_ok_cases p temp div out h with rfl | ⟨pn, f, ct, hpn, hf, rfl⟩
  · exact hg
  · intro x hx
    rcases mem_updateAssoc hx with hxd | rfl
    · exact hg x hxd
    · exact ⟨hpn, hf⟩

theorem foldlM_processDiv_good (p : Page) :
    ∀ (divs : List ProductDiv) (temp out : List (String × CatalogRecord)),
      (∀ x ∈ temp, goodEntry x) →
      divs.foldlM (processDiv p) temp = .ok out →
      ∀ x ∈ out, goodEntry x
  | [], temp, out, hg, h => by
    simp only [List.foldlM_nil, pure_eq_ok, Except.ok.injEq] at h
    exact h ▸ hg
  | div :: divs, temp, out, hg, h => by
    rw [List.foldlM_cons] at h
    cases hd : processDiv p temp div with
    | error e => rw [hd] at h; simp at h
    | ok temp' =>
      rw [hd] at h
      simp only [bind_ok_eq] at h
      exact foldlM_processDiv_good p divs temp' out (processDiv_good p hg hd) h

/-- Every record a successful extraction returns has a non-empty part
number and a recognised camera family. -/
theorem extract_good (p : Page) {recs : List (String × CatalogRecord)}
    (h : extract_part_numbers_and_chroma p = .ok recs) :
    ∀ x ∈ recs, goodEntry x :=
  foldlM_processDiv_good p p.productDivs [] recs (by simp) h

theorem foldl_updateAssoc_good :
    ∀ (recs d : List (String × CatalogRecord)),
      (∀ x ∈ d, goodEntry x) → (∀ x ∈ recs, goodEntry x) →
      ∀ x ∈ recs.foldl updateAssoc d, goodEntry x
  | [], d, hd, _, x, hx => hd x hx
  | kv :: recs, d, hd, hr, x, hx => by
    have hd' : ∀ y ∈ updateAssoc d kv, goodEntry y := by
      intro y hy
      rcases mem_updateAssoc hy with hyd | rfl
      · exact hd y hyd
      · exact hr _ (List.mem_cons_self _ _)
    exact foldl_updateAssoc_good recs (updateAssoc d kv) hd'
      (fun y hy => hr y (List.mem_cons_of_mem _ hy)) x hx

theorem processProduct_good (env : CrawlEnv) {d : List (String × CatalogRecord)}
    (hd : ∀ x ∈ d, goodEntry x) (link : String) :
    ∀ x ∈ processProduct env d link, goodEntry x := by
  cases hpr : env.pageResult link with
  | error e => simpa [processProduct, hpr] using hd
  | ok page =>
    cases hext : extract_part_numbers_and_chroma page with
    | error e => simpa [processProduct, hpr, hext] using hd
    | ok recs =>
      simpa [processProduct, hpr, hext] using
        foldl_updateAssoc_good recs d hd (extract_good page hext)

theorem foldl_processProduct_good (env : CrawlEnv) :
    ∀ (links : List String) (d : List (String × CatalogRecord)),
      (∀ x ∈ d, goodEntry x) →
      ∀ x ∈ links.foldl (processProduct env) d, goodEntry x
  | [], d, hd, x, hx => hd x hx
  | link :: links, d, hd, x, hx =>
    foldl_processProduct_good env links (processProduct env d link)
      (processProduct_good env hd link) x hx

theorem processCategory_good (env : CrawlEnv) {d : List (String × CatalogRecord)}
    (hd : ∀ x ∈ d, goodEntry x) (link : String) :
    ∀ x ∈ processCategory env d link, goodEntry x := by
  cases hsc : env.subcatResult link with
  | error e => simpa [processCategory, hsc] using hd
  | ok productLinks =>
    simpa [processCategory, hsc] using foldl_processProduct_good env productLinks d hd

theorem foldl_processCategory_good (env : CrawlEnv) :
    ∀ (links : List String) (d : List (String × CatalogRecord)),
      (∀ x ∈ d, goodEntry x) →
      ∀ x ∈ links.foldl (processCategory env) d, goodEntry x
  | [], d, hd, x, hx => hd x hx
  | link :: links, d, hd, x, hx =>
    foldl_processCategory_good env links (processCategory env d link)
      (processCategory_good env hd link) x hx

/-! ### Pages whose family filter rejects every div -/

theorem processDiv_famBad (p : Page)
    (hfam : ∀ f, familyCandidate p = .ok (some f) → f ∉ knownFamilies)
    (temp : List (String × CatalogRecord)) (div : ProductDiv) :
    processDiv p temp div = .ok temp ∨ ∃ e, processDiv p temp div = .error e := by
  cases hrow : div.rows.foldlM processRow (none, none) with
  | error e => exact Or.inr ⟨e, by simp [processDiv, hrow]⟩
  | ok st =>
    cases hf : familyCandidate p with
    | error e => exact Or.inr ⟨e, by simp [processDiv, hrow, hf]⟩
    | ok fam =>
      cases fam with
      | none => exact Or.inl (by simp [processDiv, hrow, hf])
      | some f =>
        have hkn : f ∉ knownFamilies := hfam f hf
        exact Or.inl (by simp [processDiv, hrow, hf, hkn])

theorem foldlM_famBad (p : Page)
    (hfam : ∀ f, familyCandidate p = .ok (some f) → f ∉ knownFamilies) :
    ∀ divs : List ProductDiv,
      divs.foldlM (processDiv p) [] = .ok [] ∨
        ∃ e, divs.foldlM (processDiv p) [] = .error e
  | [] => Or.inl (by simp)
  | div :: divs => by
    rcases processDiv_famBad p hfam [] div with h | ⟨e, h⟩
    · rw [List.foldlM_cons, h, bind_ok_eq]
      exact foldlM_famBad p hfam divs
    · exact Or.inr ⟨e, by rw [List.foldlM_cons, h, bind_error_eq]⟩

/-- When the family filter rejects every div (no second pathway, or an
unrecognised family), the page merges no records into the shared
dictionary. -/
theorem mergedRecords_famBad (p : Page)
    (hfam : ∀ f, familyCandidate p = .ok (some f) → f ∉ knownFamilies) :
    mergedRecords p = [] := by
  rcases foldlM_famBad p hfam p.productDivs with h | ⟨e, h⟩ <;>
    simp [mergedRecords, extract_part_numbers_and_chroma, h]

/-! ### Totality of the extractor on well-formed rows -/

/-- The row loop will index the row's `<td>` cells: a truthy caption span
whose text mentions "Part Number" or "Chroma". -/
def rowNeedsCells (row : Row) : Bool :=
  match row.captionSpan with
  | none => false
  | some cap =>
    cap.truthy && (strContains cap.text "Part Number" || strContains cap.text "Chroma")

theorem processRow_ok (row : Row)
    (h : rowNeedsCells row = true → 2 ≤ row.tds.length)
    (st : Option String × Option String) : ∃ st', processRow st row = .ok st' := by
  cases hc : row.captionSpan with
  | none => exact ⟨st, by simp [processRow, hc]⟩
  | some cap =>
    have hcells : (cap.truthy &&
        (strContains cap.text "Part Number" || strContains cap.text "Chroma")) = true →
        2 ≤ row.tds.length := by
      intro hb
      exact h (by simp [rowNeedsCells, hc, hb])
    by_cases h1 : (cap.truthy && strContains cap.text "Part Number") = true
    · have hlen : 2 ≤ row.tds.length := by
        have h1c := h1
        simp only [Bool.and_eq_true] at h1c
        exact hcells (by simp [h1c.1, h1c.2])
      cases htd : row.tds[1]? with
      | none => exact absurd (List.getElem?_eq_none_iff.mp htd) (by omega)
      | some td =>
        exact ⟨if td.truthy then (some (strTrim td.text), st.2) else st,
          by simp [processRow, hc, h1, htd]⟩
    · by_cases h2 : (cap.truthy && strContains cap.text "Chroma") = true
      · have hlen : 2 ≤ row.tds.length := by
          have h2c := h2
          simp only [Bool.and_eq_true] at h2c
          exact hcells (by simp [h2c.1, h2c.2])
        cases htd : row.tds[1]? with
        | none => exact absurd (List.getElem?_eq_none_iff.mp htd) (by omega)
        | some td =>
          exact ⟨if td.truthy then (st.1, some (strTrim td.text)) else st,
            by simp [processRow, hc, h1, h2, htd]⟩
      · exact ⟨st, by simp [processRow, hc, h1, h2]⟩

theorem foldlM_processRow_ok :
    ∀ (rows : List Row),
      (∀ row ∈ rows, rowNeedsCells row = true → 2 ≤ row.tds.length) →
      ∀ st, ∃ st', rows.foldlM processRow st = .ok st'
  | [], _, st => ⟨st, by simp⟩
  | row :: rows, h, st => by
    obtain ⟨st1, hst1⟩ := processRow_ok row (h row (List.mem_cons_self _ _)) st
    obtain ⟨st2, hst2⟩ := foldlM_processRow_ok rows
      (fun r hr => h r (List.mem_cons_of_mem _ hr)) st1
    exact ⟨st2, by rw [List.foldlM_cons, hst1, bind_ok_eq, hst2]⟩

theorem familyCandidate_ok (p : Page)
    (hpath : 2 ≤ p.pathways.length → splitWS (p.pathways.getD 1 "") ≠ []) :
    ∃ fam, familyCandidate p = .ok fam := by
  cases hg : p.pathways[1]? with
  | none => exact ⟨none, by simp [familyCandidate, hg]⟩
  | some t =>
    have hlen : 2 ≤ p.pathways.length := by
      rcases List.getElem?_eq_some_iff.mp hg with ⟨hb, _⟩
      omega
    have htd : p.pathways.getD 1 "" = t := by
      rw [List.getD_eq_getElem?_getD, hg]
      rfl
    have hne : splitWS t ≠ [] := htd ▸ hpath hlen
    cases hl : (splitWS t).getLast? with
    | none => exact absurd (List.getLast?_eq_none_iff.mp hl) hne
    | some tok => exact ⟨some tok, by simp [familyCandidate, hg, hl]⟩

theorem processDiv_total (p : Page) (temp : List (String × CatalogRecord))
    (div : ProductDiv)
    (hrows : ∀ row ∈ div.rows, rowNeedsCells row = true → 2 ≤ row.tds.length)
    (hpath : 2 ≤ p.pathways.length → splitWS (p.pathways.getD 1 "") ≠ []) :
    ∃ out, processDiv p temp div = .ok out := by
  obtain ⟨st, hst⟩ := foldlM_processRow_ok div.rows hrows (none, none)
  obtain ⟨fam, hfam⟩ := familyCandidate_ok p hpath
  simp only [processDiv, hst, hfam, bind_ok_eq]
  cases fam with
  | none => exact ⟨temp, rfl⟩
  | some f =>
    by_cases hf : f ∈ knownFamilies
    · simp only [if_pos hf]
      obtain ⟨pn?, ch?⟩ := st
      cases pn? with
      | none => exact ⟨temp, rfl⟩
      | some pn =>
        cases ch? with
        | none => exact ⟨temp, rfl⟩
        | some ch =>
          by_cases hpc : (decide ¬pn = "" && decide ¬ch = "") = true
          · simp only [if_pos hpc]
            cases hcl : classifyChroma ch with
            | none => exact ⟨temp, rfl⟩
            | some ct => exact ⟨updateAssoc temp (pn, ⟨ct, f, 0, 0⟩), rfl⟩
          · simp only [if_neg hpc]
            exact ⟨temp, rfl⟩
    · simp only [if_neg hf]
      exact ⟨temp, rfl⟩

theorem foldlM_processDiv_total (p : Page)
    (hrows : ∀ div ∈ p.productDivs, ∀ row ∈ div.rows,
      rowNeedsCells row = true → 2 ≤ row.tds.length)
    (hpath : 2 ≤ p.pathways.length → splitWS (p.pathways.getD 1 "") ≠ []) :
    ∀ (divs : List ProductDiv), (∀ div ∈ divs, div ∈ p.productDivs) →
      ∀ temp, ∃ out, divs.foldlM (processDiv p) temp = .ok out
  | [], _, temp => ⟨temp, by simp⟩
  | div :: divs, hsub, temp => by
    obtain ⟨t1, ht1⟩ := processDiv_total p temp div
      (hrows div (hsub div (List.mem_cons_self _ _))) hpath
    obtain ⟨out, hout⟩ := foldlM_processDiv_total p hrows hpath divs
      (fun d hd => hsub d (List.mem_cons_of_mem _ hd)) t1
    exact ⟨out, by rw [List.foldlM_cons, ht1, bind_ok_eq, hout]⟩

/-! ### Concrete pages and environments used to instantiate the theorems -/

/-- A well-formed product-table div: a "Part Number" row and a "Chroma"
row, each with a label cell followed by a value cell. -/
def sampleDiv (part chroma : String) : ProductDiv :=
  ⟨[⟨some ⟨true, "Part Number"⟩, [⟨true, "Part Number"⟩, ⟨true, part⟩]⟩,
    ⟨some ⟨true, "Chroma"⟩, [⟨true, "Chroma"⟩, ⟨true, chroma⟩]⟩]⟩

/-- A product page with one product div and a two-element breadcrumb whose
second entry ends in the given family token. -/
def samplePage (part chroma fam : String) : Page :=
  ⟨[sampleDiv part chroma], ["Home", "Cameras " ++ fam]⟩

/-- A one-category, one-product crawl environment. -/
def envSample : CrawlEnv where
  rootResult := .ok ["cameras"]
  subcatResult := fun _ => .ok ["area-scan"]
  pageResult := fun _ => .ok (samplePage "MC023CG-SY" "Color" "xiC")

/-- An environment whose root fetch fails. -/
def envRootFail : CrawlEnv where
  rootResult := .error ⟨"HTTP 503"⟩
  subcatResult := fun _ => .ok []
  pageResult := fun _ => .ok ⟨[], []⟩

/-- An environment with one failing category page and one failing product
page next to healthy siblings. -/
def envMixed : CrawlEnv where
  rootResult := .ok ["cat-ok", "cat-fail"]
  subcatResult := fun l => if l = "cat-fail" then .error ⟨"HTTP 404"⟩
    else .ok ["prod-ok", "prod-fail"]
  pageResult := fun l => if l = "prod-fail" then .error ⟨"timeout"⟩
    else .ok (samplePage "MC023CG-SY" "Color" "xiC")

/-- The page refuting C8: its only product div has a "Part Number" row
with no `<td>` cells, so `row.find_all("td")[1]` raises `IndexError`. -/
def shortRowPage : Page :=
  ⟨[⟨[⟨some ⟨true, "Part Number"⟩, []⟩]⟩], ["Home", "Cameras xiC"]⟩

/-- A page exercising the recovered skips: an empty div, an unknown chroma
and an unrecognised family. -/
def oddPage : Page :=
  ⟨[⟨[]⟩, sampleDiv "MQ013RG-E2" "Polarized"], ["Home", "Cameras Sensors"]⟩

/-- A page with a single breadcrumb element. -/
def onePathwayPage : Page :=
  ⟨[sampleDiv "MC023CG-SY" "Color"], ["XIMEA"]⟩

/-- The three-record dictionary of the spec's sorting example: two xiB
entries and one xiC entry. -/
def dSample : List (String × CatalogRecord) :=
  [("MC2", ⟨"rgb", "xiC", 0, 0⟩), ("MB1", ⟨"gray", "xiB", 0, 0⟩),
   ("MB0", ⟨"rgb", "xiB", 0, 0⟩)]

/-! ### The claims -/

/-- C1: for every crawl that returns a result, every entry of the final
output mapping has a non-empty `partNumber` key and a `cameraFamily` drawn
from the fixed known set {xiC, xiQ, xiSpec, xiX, xiB, xiB-64, xiRAY}. -/
theorem crawl_entries_nonempty_key_known_family (env : CrawlEnv)
    (d : List (String × CatalogRecord)) (h : fetch_part_numbers env = .ok d)
    (kv : String × CatalogRecord) (hkv : kv ∈ d) :
    kv.1 ≠ "" ∧ kv.2.cameraFamily ∈ knownFamilies := by
  cases hroot : env.rootResult with
  | error e => simp [fetch_part_numbers, hroot] at h
  | ok catLinks =>
    simp only [fetch_part_numbers, hroot, Except.ok.injEq] at h
    subst h
    exact foldl_processCategory_good env catLinks [] (by simp) kv hkv

theorem crawl_entries_nonempty_key_known_family_witness :
    ("MC023CG-SY", (⟨"rgb", "xiC", 0, 0⟩ : CatalogRecord)).1 ≠ "" ∧
    ("MC023CG-SY", (⟨"rgb", "xiC", 0, 0⟩ : CatalogRecord)).2.cameraFamily ∈ knownFamilies :=
  crawl_entries_nonempty_key_known_family envSample
    [("MC023CG-SY", ⟨"rgb", "xiC", 0, 0⟩)] rfl
    ("MC023CG-SY", ⟨"rgb", "xiC", 0, 0⟩) (List.mem_singleton.mpr rfl)

/-- C2: chroma classification is a case-insensitive ordered first-match
decision list — contains "color" ⇒ `rgb`; else contains "monochrome" or
"nir" ⇒ `gray`; else the div is skipped.  Concretely "Color" ⇒ rgb,
"Monochrome" ⇒ gray, "NIR enhanced" ⇒ gray, and a div with chroma
"Polarized" emits no record. -/
theorem chroma_decision_list :
    (∀ s, strContains (strLower s) "color" = true → classifyChroma s = some "rgb") ∧
    (∀ s, strContains (strLower s) "color" = false →
      (strContains (strLower s) "monochrome" = true ∨ strContains (strLower s) "nir" = true) →
      classifyChroma s = some "gray") ∧
    (∀ s, strContains (strLower s) "color" = false →
      strContains (strLower s) "monochrome" = false →
      strContains (strLower s) "nir" = false → classifyChroma s = none) ∧
    extract_part_numbers_and_chroma (samplePage "MC023CG-SY" "Color" "xiC") =
      .ok [("MC023CG-SY", ⟨"rgb", "xiC", 0, 0⟩)] ∧
    extract_part_numbers_and_chroma (samplePage "MC023MG-SY" "Monochrome" "xiC") =
      .ok [("MC023MG-SY", ⟨"gray", "xiC", 0, 0⟩)] ∧
    extract_part_numbers_and_chroma (samplePage "MQ022HG-IM" "NIR enhanced" "xiQ") =
      .ok [("MQ022HG-IM", ⟨"gray", "xiQ", 0, 0⟩)] ∧
    extract_part_numbers_and_chroma (samplePage "MQ022HG-IM" "Polarized" "xiQ") = .ok [] := by
  refine ⟨?_, ?_, ?_, rfl, rfl, rfl, rfl⟩
  · intro s h
    simp [classifyChroma, h]
  · intro s h1 h2
    rcases h2 with h2 | h2 <;> simp [classifyChroma, h1, h2]
  · intro s h1 h2 h3
    simp [classifyChroma, h1, h2, h3]

theorem chroma_decision_list_witness :
    classifyChroma "Super Color" = some "rgb" ∧ classifyChroma "RGB NIR" = some "gray" :=
  ⟨chroma_decision_list.1 "Super Color" (by decide),
   chroma_decision_list.2.1 "RGB NIR" (by decide) (Or.inr (by decide))⟩

/-- C3: a product page whose extracted camera family is outside the known
set merges zero records into the shared dictionary, even when part number
and chroma are present. -/
theorem unknown_family_zero_records (p : Page) (f : String)
    (hf : familyCandidate p = .ok (some f)) (hkn : f ∉ knownFamilies) :
    mergedRecords p = [] := by
  apply mergedRecords_famBad
  intro g hg
  have hfg : f = g := by simpa using hf.symm.trans hg
  subst hfg
  exact hkn

theorem unknown_family_zero_records_witness :
    mergedRecords (samplePage "S123" "Color" "Sensors") = [] :=
  unknown_family_zero_records (samplePage "S123" "Color" "Sensors") "Sensors" rfl (by decide)

/-- C4: a `FetchError` on the root catalog page propagates out of
`fetch_part_numbers` unchanged — the crawl aborts with the error and no
partial dictionary is returned. -/
theorem root_fetch_error_aborts_crawl (env : CrawlEnv) (e : FetchError)
    (h : env.rootResult = .error e) : fetch_part_numbers env = .error e := by
  simp [fetch_part_numbers, h]

theorem root_fetch_error_aborts_crawl_witness :
    fetch_part_numbers envRootFail = .error ⟨"HTTP 503"⟩ :=
  root_fetch_error_aborts_crawl envRootFail ⟨"HTTP 503"⟩ rfl

/-- C5: every per-branch failure is reduced to a local no-op: a crawl with
a successful root fetch always returns a result (no exception escapes), a
failing category or product page leaves the dictionary unchanged, and
removing a failing page from a batch does not change what its siblings
contribute. -/
theorem branch_failures_isolated (env : CrawlEnv) (links : List String)
    (hroot : env.rootResult = .ok links) (c p : String) (ec ep : FetchError)
    (hc : env.subcatResult c = .error ec) (hp : env.pageResult p = .error ep) :
    (∃ d, fetch_part_numbers env = .ok d) ∧
    (∀ d, processCategory env d c = d) ∧
    (∀ d, processProduct env d p = d) ∧
    (∀ d xs ys, (xs ++ p :: ys).foldl (processProduct env) d
      = (xs ++ ys).foldl (processProduct env) d) ∧
    (∀ d xs ys, (xs ++ c :: ys).foldl (processCategory env) d
      = (xs ++ ys).foldl (processCategory env) d) := by
  have hcat : ∀ d, processCategory env d c = d := by
    intro d
    simp [processCategory, hc]
  have hprod : ∀ d, processProduct env d p = d := by
    intro d
    simp [processProduct, hp]
  refine ⟨⟨links.foldl (processCategory env) [], by simp [fetch_part_numbers, hroot]⟩,
    hcat, hprod, ?_, ?_⟩
  · intro d xs ys
    rw [List.foldl_append, List.foldl_cons, hprod, ← List.foldl_append]
  · intro d xs ys
    rw [List.foldl_append, List.foldl_cons, hcat, ← List.foldl_append]

theorem branch_failures_isolated_witness :
    processCategory envMixed [] "cat-fail" = [] ∧
    processProduct envMixed [] "prod-fail" = [] :=
  ⟨(branch_failures_isolated envMixed ["cat-ok", "cat-fail"] rfl "cat-fail" "prod-fail"
      ⟨"HTTP 404"⟩ ⟨"timeout"⟩ rfl rfl).2.1 [],
   (branch_failures_isolated envMixed ["cat-ok", "cat-fail"] rfl "cat-fail" "prod-fail"
      ⟨"HTTP 404"⟩ ⟨"timeout"⟩ rfl rfl).2.2.1 []⟩

/-- C6: on a dictionary (distinct keys), the sorter returns exactly the
input entries — nothing added, removed or modified — in non-decreasing
order of the pair (cameraFamily, partNumber) under plain lexicographic
string comparison. -/
theorem finalize_perm_and_sorted (d : List (String × CatalogRecord))
    (h : (d.map Prod.fst).Nodup) :
    List.Perm (sort_by_family_and_part_number d) d ∧
    (sort_by_family_and_part_number d).Pairwise (fun a b => keyLE a b = true) := by
  have hperm : List.Perm (d.mergeSort keyLE) d := List.mergeSort_perm d keyLE
  have hnodup : ((d.mergeSort keyLE).map Prod.fst).Nodup :=
    ((hperm.map Prod.fst).nodup_iff).mpr h
  have heq : sort_by_family_and_part_number d = d.mergeSort keyLE :=
    dictOfList_of_nodup _ hnodup
  rw [heq]
  exact ⟨hperm, List.sorted_mergeSort keyLE_trans keyLE_total d⟩

theorem finalize_perm_and_sorted_witness :
    List.Perm (sort_by_family_and_part_number dSample) dSample ∧
    (sort_by_family_and_part_number dSample).Pairwise (fun a b => keyLE a b = true) :=
  finalize_perm_and_sorted dSample (by decide)

/-- C7: the sorter is idempotent on dictionaries — applying it to its own
output returns the same entries in the same order. -/
theorem finalize_idempotent (d : List (String × CatalogRecord))
    (h : (d.map Prod.fst).Nodup) :
    sort_by_family_and_part_number (sort_by_family_and_part_number d) =
      sort_by_family_and_part_number d := by
  have hperm : List.Perm (d.mergeSort keyLE) d := List.mergeSort_perm d keyLE
  have hnodup : ((d.mergeSort keyLE).map Prod.fst).Nodup :=
    ((hperm.map Prod.fst).nodup_iff).mpr h
  have heq : sort_by_family_and_part_number d = d.mergeSort keyLE :=
    dictOfList_of_nodup _ hnodup
  rw [heq]
  have hsorted : (d.mergeSort keyLE).Pairwise (fun a b => keyLE a b = true) :=
    List.sorted_mergeSort keyLE_trans keyLE_total d
  unfold sort_by_family_and_part_number
  rw [List.mergeSort_of_sorted hsorted]
  exact dictOfList_of_nodup _ hnodup

theorem finalize_idempotent_witness :
    sort_by_family_and_part_number (sort_by_family_and_part_number dSample) =
      sort_by_family_and_part_number dSample :=
  finalize_idempotent dSample (by decide)

/-- C8 (counterexample): the extractor is not total on malformed pages —
on a page whose "Part Number" row has fewer than two `<td>` cells it
raises `IndexError` (modelled as `.error`) instead of contributing zero
records. -/
theorem extractor_raises_on_short_row :
    extract_part_numbers_and_chroma shortRowPage = .error "IndexError" := rfl

/-- C8 (amended): on every page where each row with a matching truthy
caption has at least two `<td>` cells and, when a second pathway element
exists, its text has at least one whitespace-delimited token, the
extractor never raises; the remaining structure mismatches (missing
table, missing breadcrumb, unrecognised family, unknown chroma) yield
zero records for the div, not an exception. -/
theorem extractor_total_on_wellformed (p : Page)
    (hrows : ∀ div ∈ p.productDivs, ∀ row ∈ div.rows,
      rowNeedsCells row = true → 2 ≤ row.tds.length)
    (hpath : 2 ≤ p.pathways.length → splitWS (p.pathways.getD 1 "") ≠ []) :
    ∃ recs, extract_part_numbers_and_chroma p = .ok recs :=
  foldlM_processDiv_total p hrows hpath p.productDivs (fun _ hd => hd) []

theorem extractor_total_on_wellformed_witness :
    ∃ recs, extract_part_numbers_and_chroma oddPage = .ok recs :=
  extractor_total_on_wellformed oddPage (by decide) (by decide)

/-- C10: on a page with fewer than two breadcrumb "pathway" elements, the
candidate camera family stays absent and the page contributes zero
records — the same outcome as an unrecognised family. -/
theorem few_pathways_zero_records (p : Page) (h : p.pathways.length < 2) :
    familyCandidate p = .ok none ∧ mergedRecords p = [] := by
  have hget : p.pathways[1]? = none := List.getElem?_eq_none (by omega)
  refine ⟨by simp [familyCandidate, hget], ?_⟩
  apply mergedRecords_famBad
  intro f hf
  simp [familyCandidate, hget] at hf

theorem few_pathways_zero_records_witness :
    familyCandidate onePathwayPage = .ok none ∧ mergedRecords onePathwayPage = [] :=
  few_pathways_zero_records onePathwayPage (by decide)

end UpdateCameraDatabase
